import Mathlib

/-!
Verification development for `pythonfinalfrancia.py`, a Gutenberg
word-frequency tool.  The program has three parts: an analyzer
(`get_top_words`, `extract_title`), a SQLite-backed store
(`save_to_database`, `search_database` over a table with
`PRIMARY KEY (title, word)`), and two event handlers
(`on_search_title`, `on_fetch_from_url`).

Modelling conventions:
* Python strings are `List Char`; `str.lower` is modelled by the ASCII
  lowering `Char.toLower` (the program only ever extracts ASCII
  lowercase runs, so only ASCII lowering is observable in the results).
* The SQLite table is a list of rows in rowid (insertion) order.
  `INSERT OR REPLACE` deletes the conflicting row and appends the fresh
  row at the end, which is how SQLite assigns the new rowid.
* `ORDER BY frequency DESC` is modelled as a stable descending sort of
  the scanned rows; SQLite leaves the order of frequency ties
  unspecified, so theorems about query results only ever assert
  multiset equality and descending sortedness, never a particular tie
  order.
* Network access and SQLite I/O errors cannot run inside the embedding;
  they are injected as explicit parameters (`Option` for the downloaded
  text, `DbAccess` for the connection outcome), exactly at the points
  where the Python code branches on them.
-/

/-! ### Analyzer: `get_top_words` -/

/-- Lowercase ASCII letter, the character class `[a-z]` of the regex in
`get_top_words`. -/
def isLowerAZ (c : Char) : Bool := decide ('a' ≤ c) && decide (c ≤ 'z')

/-- Python regex word character `\w` (relevant to the `\b` anchors):
alphanumerics and underscore.  Python's `\w` on `str` additionally
matches non-ASCII letters and digits; we over-approximate every
non-ASCII code point as a word character, which is exact on ASCII text
and on accented letters (the cases the specification discusses). -/
def isWordChar (c : Char) : Bool := c.isAlphanum || c == '_' || decide (128 ≤ c.toNat)

/-- One-pass scanner implementing `re.findall(r'\b[a-z]+\b', text)`:
`run` holds the current `[a-z]` run in reverse, `okStart` records
whether that run began at a word boundary (i.e. right after a non-word
character or the start of the text), and `pw` records whether the
previous character was a word character.  A run is reported exactly
when both of its ends sit at word boundaries. -/
def fwAux (run : List Char) (okStart : Bool) (pw : Bool) : List Char → List (List Char)
  | [] => if run.isEmpty then [] else if okStart then [run.reverse] else []
  | c :: cs =>
    if isLowerAZ c then
      if run.isEmpty then fwAux [c] (!pw) true cs
      else fwAux (c :: run) okStart true cs
    else
      (if !run.isEmpty && okStart && !isWordChar c then [run.reverse] else []) ++
        fwAux [] false (isWordChar c) cs

/-- `re.findall(r'\b[a-z]+\b', text)` from `get_top_words`. -/
def findWords (text : List Char) : List (List Char) := fwAux [] false false text

/-- `text.lower()` (ASCII fragment, see the header comment). -/
def pyLower (text : List Char) : List Char := text.map Char.toLower

/-- The distinct elements of a list in order of first occurrence: the
iteration order of a Python `Counter` (insertion ordered dict). -/
def dedupFirst : List (List Char) → List (List Char)
  | [] => []
  | w :: ws => w :: (dedupFirst ws).filter (fun v => v ≠ w)

/-- `Counter(words).items()`: each distinct word, in first-occurrence
order, paired with its number of occurrences. -/
def counterItems (ws : List (List Char)) : List (List Char × Nat) :=
  (dedupFirst ws).map (fun w => (w, ws.count w))

/-- Comparison used by `Counter.most_common`: sort key is the count,
descending. -/
def freqGe (a b : List Char × Nat) : Prop := b.2 ≤ a.2

instance : DecidableRel freqGe := fun a b => Nat.decLe b.2 a.2

instance : IsTotal (List Char × Nat) freqGe := ⟨fun a b => Nat.le_total b.2 a.2⟩

instance : IsTrans (List Char × Nat) freqGe := ⟨fun _ _ _ h1 h2 => Nat.le_trans h2 h1⟩

/-- `Counter.most_common(n)`: a stable sort of the counter's items by
count descending (CPython uses `heapq.nlargest`, documented equivalent
to a stable `sorted(...)[:n]`), truncated to the first `n`. -/
def most_common (ws : List (List Char)) (n : Nat) : List (List Char × Nat) :=
  (List.insertionSort freqGe (counterItems ws)).take n

/-- `get_top_words(text, num_words)`: lower-case the text, extract the
regex word list, count occurrences, return the `num_words` most
common. -/
def get_top_words (text : List Char) (num_words : Nat) : List (List Char × Nat) :=
  most_common (findWords (pyLower text)) num_words

example : get_top_words (("the the the cat".toList)) 2
    = [(("the".toList), 3), (("cat".toList), 1)] := by decide

example : findWords (("cat1".toList)) = [] := by decide

example : findWords (("cat! dog cat".toList)) = [("cat".toList), ("dog".toList), ("cat".toList)] := by
  decide

/-! ### Analyzer: `extract_title` -/

/-- Whitespace stripped by Python's `str.strip` (ASCII fragment). -/
def isPySpace (c : Char) : Bool :=
  c == ' ' || c == '\t' || c == '\n' || c == '\x0d' || c == '\x0b' || c == '\x0c'

/-- Python `s.strip()`: remove leading and trailing whitespace. -/
def py_strip (s : List Char) : List Char :=
  ((s.dropWhile isPySpace).reverse.dropWhile isPySpace).reverse

/-- Python `s.split('\n')`: split at every newline, keeping empty
pieces (so the result is always nonempty). -/
def splitOnNl : List Char → List (List Char)
  | [] => [[]]
  | c :: cs =>
    if c = '\n' then [] :: splitOnNl cs
    else
      match splitOnNl cs with
      | [] => [[c]]
      | l :: ls => (c :: l) :: ls

/-- The test `line.strip().lower().startswith('title:')` from
`extract_title`. -/
def isTitleLine (line : List Char) : Bool :=
  ("title:".toList).isPrefixOf (pyLower (py_strip line))

/-- The returned value `line.strip()[6:].strip()` from `extract_title`. -/
def titleRemainder (line : List Char) : List Char :=
  py_strip ((py_strip line).drop 6)

/-- Line-by-line scan of `extract_title`: the first matching line wins. -/
def extract_title_lines : List (List Char) → List Char
  | [] => "Unknown Title".toList
  | line :: rest =>
    if isTitleLine line then titleRemainder line else extract_title_lines rest

/-- `extract_title(book_text)`. -/
def extract_title (book_text : List Char) : List Char :=
  extract_title_lines (splitOnNl book_text)

example : extract_title (("Title: Moby Dick\nChapter 1".toList)) = ("Moby Dick".toList) := by decide

example : extract_title (("no marker here".toList)) = ("Unknown Title".toList) := by decide

/-! ### Store -/

/-- A row of the `word_frequencies` table: `(title, (word, frequency))`. -/
abbrev Row := List Char × (List Char × Nat)

/-- The table contents, listed in rowid (insertion) order. -/
abbrev Store := List Row

/-- The table right after `initialize_database` first creates it: no rows. -/
def freshDb : Store := []

/-- Does row `r` have primary key `(t, w)`? -/
def sameKey (t w : List Char) (r : Row) : Bool := decide (r.1 = t ∧ r.2.1 = w)

/-- One `INSERT OR REPLACE INTO word_frequencies VALUES (t, w, f)`:
SQLite deletes any row with the conflicting primary key and inserts the
new row with a fresh (largest) rowid, i.e. at the end. -/
def insertOrReplace (t w : List Char) (f : Nat) (s : Store) : Store :=
  s.filter (fun r => !sameKey t w r) ++ [(t, (w, f))]

/-- `save_to_database(title, word_freqs)` (success path): one
`INSERT OR REPLACE` per `(word, freq)` pair, in list order. -/
def save_to_database (title : List Char) (word_freqs : List (List Char × Nat))
    (s : Store) : Store :=
  word_freqs.foldl (fun st p => insertOrReplace title p.1 p.2 st) s

/-- The rows of `s` whose primary key is `(t, w)`. -/
def rowsFor (t w : List Char) (s : Store) : Store :=
  s.filter (fun r => sameKey t w r)

/-- The rows scanned by `WHERE title = ?`, in table order. -/
def titleRows (t : List Char) (s : Store) : Store :=
  s.filter (fun r => decide (r.1 = t))

/-- The result rows of the `SELECT` in `search_database`:
`SELECT word, frequency WHERE title = ? ORDER BY frequency DESC LIMIT 10`.
Ties in `frequency` are returned in table order (SQLite leaves them
unspecified; see the header comment). -/
def search_rows (title : List Char) (s : Store) : List (List Char × Nat) :=
  (List.insertionSort freqGe ((titleRows title s).map (fun r => r.2))).take 10

/-- `search_database(title)` (success path): the fetched rows if any,
otherwise `None`. -/
def search_database (title : List Char) (s : Store) : Option (List (List Char × Nat)) :=
  if search_rows title s = [] then none else some (search_rows title s)

/-! ### Error injection and handlers -/

/-- Outcome of touching the SQLite connection inside the `try` block:
either the table contents are available, or some I/O error `e` is
raised. -/
inductive DbAccess : Type
  | avail (s : Store)
  | ioError (e : List Char)

/-- `search_database` including its `try/except`: on an I/O error the
`except` arm prints `"Error searching database: ..."` to the console
and returns `None`.  Result: (returned value, console log lines). -/
def search_database_io (title : List Char) :
    DbAccess → Option (List (List Char × Nat)) × List (List Char)
  | DbAccess.avail s => (search_database title s, [])
  | DbAccess.ioError e => (none, [("Error searching database: ".toList) ++ e])

/-- One output line per result pair: the word, a colon and a space, the
decimal count, and a newline — the f-string the handlers print. -/
def renderRow (p : List Char × Nat) : List Char :=
  p.1 ++ (": ".toList) ++ (Nat.repr p.2).toList ++ [Char.ofNat 10]

/-- What `on_search_title` writes to the output area, given the value
returned by `search_database`.  Python truthiness: `None` and the empty
list both take the `else` branch. -/
def on_search_report (title : List Char) :
    Option (List (List Char × Nat)) → List Char
  | some (p :: ps) =>
    ("Top words for '".toList) ++ title ++ ("':".toList) ++ [Char.ofNat 10] ++
      ((p :: ps).map renderRow).flatten
  | some [] => "Book was not found.".toList ++ [Char.ofNat 10]
  | none => "Book was not found.".toList ++ [Char.ofNat 10]

/-- The `on_search_title` handler after its empty-entry guard (a blank
entry only pops a warning box and touches nothing modelled here):
strip the entry, run the lookup, report.  Result: (output-area text,
console log lines). -/
def on_search_title (entry : List Char) (db : DbAccess) : List Char × List (List Char) :=
  ((on_search_report (py_strip entry) (search_database_io (py_strip entry) db).1),
    (search_database_io (py_strip entry) db).2)

/-- What `on_fetch_from_url` writes for a successful save. -/
def renderSaved (t : List Char) (tw : List (List Char × Nat)) : List Char :=
  ("Saved '".toList) ++ t ++ ("' to database with top words:".toList) ++ [Char.ofNat 10] ++
    (tw.map renderRow).flatten

/-- The `on_fetch_from_url` handler after its empty-entry guard, with
the result of `download_book(url)` injected as `fetched`
(`download_book` performs the network GET and returns `None` on any
error).  Python truthiness: `None` and the empty string both take the
failure branch.  Result: (new store, output-area text). -/
def on_fetch_from_url (fetched : Option (List Char)) (s : Store) : Store × List Char :=
  match fetched with
  | some text =>
    if text.isEmpty then (s, ("Book could not be downloaded.".toList) ++ [Char.ofNat 10])
    else
      ((save_to_database (extract_title text) (get_top_words text 10) s),
        renderSaved (extract_title text) (get_top_words text 10))
  | none => (s, ("Book could not be downloaded.".toList) ++ [Char.ofNat 10])

/-! ### Spec-side definitions (for the tokenisation claim) -/

/-- Modelled from the spec: the claim's reading of tokenisation — the
maximal runs of lowercase ASCII letters of the (lowered) text, every
run extracted regardless of what character it touches. -/
def specMaximalRuns (t : List Char) : List (List Char) :=
  (t.splitOnP (fun c => !isLowerAZ c)).filter (fun r => !r.isEmpty)

/-- Is the next character (if any) a word boundary, i.e. absent or a
non-word character? -/
def boundaryOk (l : List Char) : Bool :=
  match l.head? with
  | none => true
  | some d => !isWordChar d

/-- Modelled from the spec (amended claim): scan the text; each maximal
run of lowercase letters is extracted exactly when it starts at a word
boundary (`pw` tracks whether the previous character was a word
character) and the character after the run, if any, is not a word
character. -/
def specTokensGo : Bool → List Char → List (List Char)
  | _, [] => []
  | pw, c :: cs =>
    if isLowerAZ c then
      (if !pw && boundaryOk (cs.dropWhile isLowerAZ) then
        [c :: cs.takeWhile isLowerAZ]
      else []) ++ specTokensGo true (cs.dropWhile isLowerAZ)
    else specTokensGo (isWordChar c) cs
termination_by _ l => l.length
decreasing_by
  all_goals simp only [List.length_cons]
  · exact Nat.lt_succ_of_le ((List.dropWhile_suffix _).sublist.length_le)
  · exact Nat.lt_succ_self _

/-- Modelled from the spec (amended claim): the tokens of a text, per
`specTokensGo` starting at the beginning of the text. -/
def specTokens (t : List Char) : List (List Char) := specTokensGo false t

example : specMaximalRuns (("cat1".toList)) = [("cat".toList)] := by decide

/-! ### Helper lemmas about the analyzer -/

theorem mem_dedupFirst {v : List Char} : ∀ {ws : List (List Char)}, v ∈ dedupFirst ws ↔ v ∈ ws
  | [] => by simp [dedupFirst]
  | w :: ws => by
    by_cases hv : v = w
    · subst hv; simp [dedupFirst]
    · simp [dedupFirst, hv, List.mem_filter, @mem_dedupFirst v ws]

theorem nodup_dedupFirst : ∀ ws : List (List Char), (dedupFirst ws).Nodup
  | [] => by simp [dedupFirst]
  | w :: ws => by
    rw [dedupFirst, List.nodup_cons]
    refine ⟨fun h => ?_, (nodup_dedupFirst ws).filter _⟩
    have := (List.mem_filter.mp h).2
    simp at this

theorem counterItems_mem {p : List Char × Nat} {ws : List (List Char)}
    (hp : p ∈ counterItems ws) : p.2 = ws.count p.1 ∧ p.1 ∈ ws := by
  rw [counterItems, List.mem_map] at hp
  obtain ⟨w, hw, hwp⟩ := hp
  subst hwp
  exact ⟨rfl, mem_dedupFirst.mp hw⟩

theorem counterItems_fst (ws : List (List Char)) :
    (counterItems ws).map Prod.fst = dedupFirst ws := by
  have h : (Prod.fst ∘ fun w : List Char => (w, List.count w ws)) = id := rfl
  rw [counterItems, List.map_map, h, List.map_id]

theorem sorted_most_common (ws : List (List Char)) (n : Nat) :
    List.Pairwise freqGe (most_common ws n) :=
  List.Pairwise.sublist (List.take_sublist _ _)
    (List.sorted_insertionSort freqGe (counterItems ws))

theorem mem_most_common_mem_counterItems {p : List Char × Nat}
    {ws : List (List Char)} {n : Nat} (hp : p ∈ most_common ws n) :
    p ∈ counterItems ws :=
  (List.perm_insertionSort freqGe (counterItems ws)).subset
    ((List.take_sublist _ _).subset hp)

theorem get_top_words_sorted (text : List Char) (n : Nat) :
    List.Pairwise freqGe (get_top_words text n) :=
  sorted_most_common _ _

theorem get_top_words_count_pos (text : List Char) (n : Nat)
    {p : List Char × Nat} (hp : p ∈ get_top_words text n) : 1 ≤ p.2 := by
  obtain ⟨hc, hm⟩ := counterItems_mem (mem_most_common_mem_counterItems hp)
  rw [hc]
  exact List.count_pos_iff.mpr hm

theorem extract_title_lines_eq_find (ls : List (List Char)) :
    extract_title_lines ls =
      (match ls.find? isTitleLine with
        | some line => titleRemainder line
        | none => "Unknown Title".toList) := by
  induction ls with
  | nil => simp [extract_title_lines]
  | cons line rest ih =>
    by_cases h : isTitleLine line
    · simp [extract_title_lines, h]
    · simp [extract_title_lines, h, ih]

/-! ### Claim C2 -/

/-- C2: for every text and every `n`, `get_top_words` returns at most
`n` entries, each entry's count is at least 1, and the counts are
non-increasing from the first entry to the last. -/
theorem top_words_shape (text : List Char) (n : Nat) :
    (get_top_words text n).length ≤ n
    ∧ (∀ p ∈ get_top_words text n, 1 ≤ p.2)
    ∧ List.Pairwise freqGe (get_top_words text n) :=
  ⟨List.length_take_le _ _, fun _ hp => get_top_words_count_pos text n hp,
    get_top_words_sorted text n⟩

theorem top_words_shape_witness :
    (get_top_words (("the the the cat".toList)) 2).length ≤ 2
    ∧ 1 ≤ ((("the".toList), 3) : List Char × Nat).2
    ∧ List.Pairwise freqGe (get_top_words (("the the the cat".toList)) 2) := by
  have h := top_words_shape (("the the the cat".toList)) 2
  exact ⟨h.1, h.2.1 _ (by decide), h.2.2⟩

/-! ### Claim C4 -/

/-- C4: `extract_title` returns the trimmed remainder of the first line
whose stripped prefix matches `title:` case-insensitively, and the
sentinel `Unknown Title` when no line matches; in particular on
`"Title: Moby Dick\nChapter 1"` it returns `"Moby Dick"` and on
`"no marker here"` it returns `"Unknown Title"`. -/
theorem extract_title_spec (t : List Char) :
    (extract_title t =
      (match (splitOnNl t).find? isTitleLine with
        | some line => titleRemainder line
        | none => "Unknown Title".toList))
    ∧ extract_title (("Title: Moby Dick\nChapter 1".toList)) = ("Moby Dick".toList)
    ∧ extract_title (("no marker here".toList)) = ("Unknown Title".toList) :=
  ⟨extract_title_lines_eq_find _, by decide, by decide⟩

/-! ### Claim C6 -/

/-- C6: when the fetch fails (`download_book` returns `None`), the
handler reports the download failure and returns the store unchanged:
no row is inserted, replaced, or deleted. -/
theorem fetch_failure_leaves_store (s : Store) :
    on_fetch_from_url none s
      = (s, ("Book could not be downloaded.".toList) ++ [Char.ofNat 10]) := rfl

/-! ### Helper lemmas about the store -/

/-- The words written by a `save_to_database` call, in list order. -/
def wordsOf (wfs : List (List Char × Nat)) : List (List Char) := wfs.map Prod.fst

/-- Does row `r` avoid every key `(t, w)` with `w` among `ws`? -/
def keyOutside (t : List Char) (ws : List (List Char)) (r : Row) : Bool :=
  !(decide (r.1 = t ∧ r.2.1 ∈ ws))

/-- The effective writes of a `save_to_database` call: for each distinct
word only its last `(word, freq)` occurrence survives, rows ending up in
order of last occurrence. -/
def lastWrites : List (List Char × Nat) → List (List Char × Nat)
  | [] => []
  | p :: rest => if p.1 ∈ wordsOf rest then lastWrites rest else p :: lastWrites rest

theorem lastWrites_fst_mem {p : List Char × Nat} :
    ∀ {wfs : List (List Char × Nat)}, p ∈ lastWrites wfs → p.1 ∈ wordsOf wfs
  | [], h => by simp [lastWrites] at h
  | q :: rest, h => by
    rw [lastWrites] at h
    by_cases hq : q.1 ∈ wordsOf rest
    · rw [if_pos hq] at h
      exact List.mem_cons_of_mem _ (lastWrites_fst_mem h)
    · rw [if_neg hq] at h
      rcases List.mem_cons.mp h with h | h
      · subst h; exact List.mem_cons_self _ _
      · exact List.mem_cons_of_mem _ (lastWrites_fst_mem h)

theorem lastWrites_of_nodup : ∀ {wfs : List (List Char × Nat)},
    (wordsOf wfs).Nodup → lastWrites wfs = wfs
  | [], _ => rfl
  | p :: rest, h => by
    rw [wordsOf, List.map_cons, List.nodup_cons] at h
    rw [lastWrites, if_neg (by simpa [wordsOf] using h.1),
      lastWrites_of_nodup (by simpa [wordsOf] using h.2)]

theorem keyOutside_cons (t w : List Char) (ws : List (List Char)) (r : Row) :
    (keyOutside t ws r && !sameKey t w r) = keyOutside t (w :: ws) r := by
  by_cases h1 : r.1 = t
  · by_cases h2 : r.2.1 = w
    · simp [keyOutside, sameKey, h1, h2]
    · by_cases h3 : r.2.1 ∈ ws <;> simp [keyOutside, sameKey, h1, h2, h3]
  · simp [keyOutside, sameKey, h1]

theorem save_step (t : List Char) (w : List Char) (f : Nat)
    (rest : List (List Char × Nat)) (s : Store) :
    save_to_database t ((w, f) :: rest) s
      = save_to_database t rest (insertOrReplace t w f s) := rfl

theorem save_eq (t : List Char) : ∀ (wfs : List (List Char × Nat)) (s : Store),
    save_to_database t wfs s
      = s.filter (keyOutside t (wordsOf wfs))
          ++ (lastWrites wfs).map (fun p => (t, p))
  | [], s => by
    have h : ∀ r ∈ s, keyOutside t (wordsOf []) r = true := by
      intro r _; simp [keyOutside, wordsOf]
    simp [save_to_database, lastWrites, List.filter_eq_self.mpr h]
  | (w, f) :: rest, s => by
    rw [save_step, save_eq t rest (insertOrReplace t w f s), insertOrReplace,
      List.filter_append, List.filter_filter]
    have hcongr : s.filter (fun a => keyOutside t (wordsOf rest) a && !sameKey t w a)
        = s.filter (keyOutside t (wordsOf ((w, f) :: rest))) := by
      refine List.filter_congr fun r _ => ?_
      have h := keyOutside_cons t w (wordsOf rest) r
      simpa [wordsOf] using h
    rw [hcongr]
    by_cases hw : w ∈ wordsOf rest
    · have hrow : List.filter (keyOutside t (wordsOf rest)) [(t, (w, f))] = [] := by
        simp [keyOutside, hw]
      rw [hrow, lastWrites, if_pos hw]
      simp
    · have hrow : List.filter (keyOutside t (wordsOf rest)) [(t, (w, f))] = [(t, (w, f))] := by
        simp [keyOutside, hw]
      rw [hrow]
      simp [lastWrites, hw, List.append_assoc]


/-- Keys are pairwise distinct between two rows. -/
def DiffKey (a b : Row) : Prop := a.1 ≠ b.1 ∨ a.2.1 ≠ b.2.1

/-- The store invariant: no two rows share a `(title, word)` key. -/
def NoDupKeys (s : Store) : Prop := s.Pairwise DiffKey

theorem noDupKeys_insertOrReplace {s : Store} (t w : List Char) (f : Nat)
    (h : NoDupKeys s) : NoDupKeys (insertOrReplace t w f s) := by
  rw [insertOrReplace]
  refine List.pairwise_append.mpr ⟨h.filter _, List.pairwise_singleton _ _, ?_⟩
  intro a ha b hb
  rw [List.mem_singleton] at hb
  subst hb
  have hk := (List.mem_filter.mp ha).2
  simp only [sameKey, Bool.not_eq_eq_eq_not, Bool.not_true, decide_eq_false_iff_not] at hk
  by_cases h1 : a.1 = t
  · exact Or.inr fun h2 => hk ⟨h1, h2⟩
  · exact Or.inl h1

theorem noDupKeys_save {t : List Char} :
    ∀ (wfs : List (List Char × Nat)) {s : Store},
      NoDupKeys s → NoDupKeys (save_to_database t wfs s)
  | [], _, h => h
  | (w, f) :: rest, s, h => by
    rw [save_step]
    exact noDupKeys_save rest (noDupKeys_insertOrReplace t w f h)

theorem rowsFor_insertOrReplace (s : Store) (t w : List Char) (f : Nat) :
    rowsFor t w (insertOrReplace t w f s) = [(t, (w, f))] := by
  rw [rowsFor, insertOrReplace, List.filter_append, List.filter_filter]
  have h1 : s.filter (fun a => sameKey t w a && !sameKey t w a) = [] :=
    List.filter_eq_nil_iff.mpr fun a _ => by simp
  have h2 : List.filter (fun r => sameKey t w r) [(t, (w, f))] = [(t, (w, f))] := by
    simp [sameKey]
  rw [h1, h2, List.nil_append]

/-! ### Claim C5 -/

/-- C5: starting from the freshly created schema, any sequence of
`save_to_database` operations keeps at most one row per `(title, word)`
key; each single `INSERT OR REPLACE` leaves exactly one row with the
written key (inserting it when absent, replacing it when present). -/
theorem upsert_unique_keys :
    (∀ ops : List (List Char × List (List Char × Nat)),
      NoDupKeys (ops.foldl (fun s op => save_to_database op.1 op.2 s) freshDb))
    ∧ (∀ (s : Store) (t w : List Char) (f : Nat),
      rowsFor t w (insertOrReplace t w f s) = [(t, (w, f))]) := by
  constructor
  · have h : ∀ (ops : List (List Char × List (List Char × Nat))) (s : Store),
        NoDupKeys s → NoDupKeys (ops.foldl (fun s op => save_to_database op.1 op.2 s) s) := by
      intro ops
      induction ops with
      | nil => exact fun s h => h
      | cons op rest ih => exact fun s h => ih _ (noDupKeys_save op.2 h)
    exact fun ops => h ops freshDb (List.Pairwise.nil)
  · exact rowsFor_insertOrReplace

/-! ### Claim C10 -/

/-- C10: `save_to_database` is idempotent — saving the same title and
word list twice in a row leaves the store in exactly the state of
saving it once. -/
theorem save_idempotent (s : Store) (t : List Char) (wfs : List (List Char × Nat)) :
    save_to_database t wfs (save_to_database t wfs s) = save_to_database t wfs s := by
  rw [save_eq, save_eq, List.filter_append, List.filter_filter]
  have h1 : s.filter (fun a => keyOutside t (wordsOf wfs) a && keyOutside t (wordsOf wfs) a)
      = s.filter (keyOutside t (wordsOf wfs)) :=
    List.filter_congr fun a _ => Bool.and_self _
  have h2 : ((lastWrites wfs).map (fun p => (t, p))).filter (keyOutside t (wordsOf wfs))
      = [] := by
    refine List.filter_eq_nil_iff.mpr fun r hr => ?_
    obtain ⟨p, hp, hpr⟩ := List.mem_map.mp hr
    subst hpr
    have hm := lastWrites_fst_mem hp
    simp [keyOutside, hm]
  rw [h1, h2, List.append_nil]

/-! ### Claim C8 -/

/-- C8: re-saving a title writes only the keys named in the new word
list; rows of that title for words outside the new set are left
unchanged and never removed. -/
theorem save_frame (s : Store) (t : List Char) (wfs : List (List Char × Nat))
    (w : List Char) (hw : w ∉ wordsOf wfs) :
    rowsFor t w (save_to_database t wfs s) = rowsFor t w s := by
  rw [save_eq, rowsFor, List.filter_append, List.filter_filter]
  have h1 : s.filter (fun a => sameKey t w a && keyOutside t (wordsOf wfs) a)
      = s.filter (fun r => sameKey t w r) := by
    refine List.filter_congr fun r _ => ?_
    cases hsk : sameKey t w r with
    | false => simp
    | true =>
      have hk : keyOutside t (wordsOf wfs) r = true := by
        simp only [sameKey, decide_eq_true_eq] at hsk
        simp [keyOutside, hsk.1, hsk.2, hw]
      simp [hk]
  have h2 : ((lastWrites wfs).map (fun p => (t, p))).filter (fun r => sameKey t w r)
      = [] := by
    refine List.filter_eq_nil_iff.mpr fun r hr => ?_
    obtain ⟨p, hp, hpr⟩ := List.mem_map.mp hr
    subst hpr
    have hm := lastWrites_fst_mem hp
    simp only [sameKey, decide_eq_true_eq, not_and]
    intro _ h2w
    exact hw (h2w ▸ hm)
  rw [h1, h2, List.append_nil, rowsFor]

theorem save_frame_witness :
    ("dog".toList) ∉ wordsOf [(("cat".toList), 3)]
    ∧ rowsFor ("A".toList) ("dog".toList)
        (save_to_database ("A".toList) [(("cat".toList), 3)]
          [(("A".toList), (("dog".toList), 7))])
      = rowsFor ("A".toList) ("dog".toList) [(("A".toList), (("dog".toList), 7))] :=
  ⟨by decide, save_frame [(("A".toList), (("dog".toList), 7))] ("A".toList)
    [(("cat".toList), 3)] ("dog".toList) (by decide)⟩

theorem search_db_unsaved_none (s : Store) (title : List Char)
    (h : ∀ r ∈ s, r.1 ≠ title) : search_database title s = none := by
  have ht : titleRows title s = [] :=
    List.filter_eq_nil_iff.mpr fun r hr => by simp [h r hr]
  rw [search_database, search_rows, ht]
  simp

/-! ### Claim C9 -/

/-- C9: looking up a title for which no row was ever saved returns the
absence signal `None` (not an empty sequence and not an error). -/
theorem lookup_unsaved (s : Store) (title : List Char)
    (h : ∀ r ∈ s, r.1 ≠ title) : search_database title s = none :=
  search_db_unsaved_none s title h

theorem lookup_unsaved_witness :
    (∀ r ∈ freshDb, r.1 ≠ ("Little Women".toList))
    ∧ search_database ("Little Women".toList) freshDb = none :=
  ⟨fun r hr => absurd hr (List.not_mem_nil r),
    lookup_unsaved freshDb ("Little Women".toList)
      (fun r hr => absurd hr (List.not_mem_nil r))⟩


/-! ### Claim C1 -/

theorem get_top_words_words_nodup (text : List Char) (n : Nat) :
    ((get_top_words text n).map Prod.fst).Nodup := by
  have h0 : ((counterItems (findWords (pyLower text))).map Prod.fst).Nodup := by
    rw [counterItems_fst]
    exact nodup_dedupFirst _
  have h1 : ((List.insertionSort freqGe
      (counterItems (findWords (pyLower text)))).map Prod.fst).Nodup :=
    ((List.perm_insertionSort freqGe _).map Prod.fst).nodup_iff.mpr h0
  rw [get_top_words, most_common, List.map_take]
  exact List.Nodup.sublist (List.take_sublist _ _) h1

/-- C1: saving `top_words(text)` under a title that has no rows yet and
then looking that title up returns exactly the saved `(word, count)`
pairs, ordered by descending frequency (and the absence signal when the
text had no words at all, so that nothing was saved). -/
theorem round_trip (text title : List Char) (s : Store)
    (hs : ∀ r ∈ s, r.1 ≠ title) :
    (get_top_words text 10 = [] →
      search_database title (save_to_database title (get_top_words text 10) s) = none)
    ∧ (get_top_words text 10 ≠ [] →
      ∃ res,
        search_database title (save_to_database title (get_top_words text 10) s) = some res
        ∧ res.Perm (get_top_words text 10) ∧ List.Pairwise freqGe res) := by
  have hnodup : (wordsOf (get_top_words text 10)).Nodup := by
    rw [wordsOf]
    exact get_top_words_words_nodup text 10
  have ht : titleRows title (save_to_database title (get_top_words text 10) s)
      = (get_top_words text 10).map (fun p => (title, p)) := by
    rw [save_eq, titleRows, List.filter_append]
    have ha : (s.filter (keyOutside title (wordsOf (get_top_words text 10)))).filter
        (fun r => decide (r.1 = title)) = [] := by
      refine List.filter_eq_nil_iff.mpr fun r hr => ?_
      have hrs := (List.mem_filter.mp hr).1
      simp [hs r hrs]
    have hb : ((lastWrites (get_top_words text 10)).map (fun p => (title, p))).filter
        (fun r => decide (r.1 = title))
        = (lastWrites (get_top_words text 10)).map (fun p => (title, p)) := by
      refine List.filter_eq_self.mpr fun r hr => ?_
      obtain ⟨p, _, hpr⟩ := List.mem_map.mp hr
      subst hpr
      simp
    rw [ha, hb, List.nil_append, lastWrites_of_nodup hnodup]
  have hrows : search_rows title (save_to_database title (get_top_words text 10) s)
      = get_top_words text 10 := by
    rw [search_rows, ht, List.map_map]
    have hmm : ((fun r : Row => r.2) ∘ fun p : List Char × Nat => (title, p)) = id := rfl
    rw [hmm, List.map_id]
    have hsorted : List.Sorted freqGe (get_top_words text 10) := get_top_words_sorted text 10
    rw [hsorted.insertionSort_eq]
    exact List.take_of_length_le (by rw [get_top_words, most_common]; exact List.length_take_le _ _)
  constructor
  · intro h0
    rw [search_database, hrows, if_pos h0]
  · intro h0
    exact ⟨get_top_words text 10, by rw [search_database, hrows, if_neg h0],
      List.Perm.refl _, get_top_words_sorted text 10⟩

theorem round_trip_witness :
    ∃ res,
      search_database ("X".toList)
          (save_to_database ("X".toList) (get_top_words (("the the the cat".toList)) 10) freshDb)
        = some res
      ∧ res.Perm (get_top_words (("the the the cat".toList)) 10)
      ∧ List.Pairwise freqGe res :=
  (round_trip (("the the the cat".toList)) ("X".toList) freshDb
    (fun r hr => absurd hr (List.not_mem_nil r))).2 (by decide)

/-! ### Claim C7 -/

/-- C7 counterexample: a backing-store error during lookup produces the
very same user-facing output as an unknown title ("Book was not
found."), so the store failure is not surfaced distinctly from the
not-found report; only the console log differs. -/
theorem search_error_report_not_distinct :
    (on_search_title ("B".toList) (DbAccess.ioError ("disk I/O error".toList))).1
      = (on_search_title ("B".toList) (DbAccess.avail freshDb)).1
    ∧ (on_search_title ("B".toList) (DbAccess.ioError ("disk I/O error".toList))).2
      ≠ (on_search_title ("B".toList) (DbAccess.avail freshDb)).2 := by
  decide

/-- C7 (amended): a backing-store I/O error during lookup is caught,
logged to the console as an `Error searching database:` line, and
converted to the same absence result `None` that an unknown title
yields, so the user-facing report is the identical "Book was not
found." message in both cases; the two failure kinds are distinguished
only in the console log. -/
theorem search_failure_amended (title e : List Char) (s : Store)
    (hs : ∀ r ∈ s, r.1 ≠ title) :
    search_database_io title (DbAccess.ioError e)
        = (none, [("Error searching database: ".toList) ++ e])
    ∧ search_database_io title (DbAccess.avail s) = (none, [])
    ∧ on_search_report title none = ("Book was not found.".toList) ++ [Char.ofNat 10] := by
  refine ⟨rfl, ?_, rfl⟩
  simp [search_database_io, search_db_unsaved_none s title hs]

theorem search_failure_amended_witness :
    search_database_io ("B".toList) (DbAccess.ioError ("disk".toList))
        = (none, [("Error searching database: ".toList) ++ ("disk".toList)])
    ∧ search_database_io ("B".toList) (DbAccess.avail freshDb) = (none, [])
    ∧ on_search_report ("B".toList) none
        = ("Book was not found.".toList) ++ [Char.ofNat 10] :=
  search_failure_amended ("B".toList) ("disk".toList) freshDb
    (fun r hr => absurd hr (List.not_mem_nil r))

/-! ### Claim C3 -/

/-- C3 counterexample: in `"cat1"` the letters `cat` form a maximal run
of lowercase letters of the (lowered) text, yet the regex
`\b[a-z]+\b` extracts nothing at all, because the digit `1` is a word
character and so no word boundary separates `t` from `1`; consequently
`get_top_words` counts no token.  This refutes the claim that a run of
letters adjacent to a digit is still extracted as a word. -/
theorem tokens_digit_adjacent_cex :
    specMaximalRuns (pyLower (("cat1".toList))) = [("cat".toList)]
    ∧ findWords (pyLower (("cat1".toList))) = []
    ∧ get_top_words (("cat1".toList)) 10 = [] := by
  refine ⟨by decide, by decide, by decide⟩

theorem fw_combined : ∀ (n : Nat) (cs : List Char), cs.length ≤ n →
    (∀ (run : List Char) (ok : Bool), run ≠ [] →
      fwAux run ok true cs
        = (if ok && boundaryOk (cs.dropWhile isLowerAZ) then
            [run.reverse ++ cs.takeWhile isLowerAZ]
          else [])
          ++ specTokensGo true (cs.dropWhile isLowerAZ))
    ∧ (∀ pw : Bool, fwAux [] false pw cs = specTokensGo pw cs)
  | _, [], _ => by
    constructor
    · intro run ok hrun
      have hre : run.isEmpty = false := by
        cases run with
        | nil => exact absurd rfl hrun
        | cons a as => rfl
      simp only [List.dropWhile_nil, List.takeWhile_nil, fwAux, hre, boundaryOk,
        List.head?_nil, specTokensGo, List.append_nil]
      cases ok <;> simp
    · intro pw
      simp [fwAux, specTokensGo]
  | 0, c :: cs, h => absurd h (by simp)
  | n + 1, c :: cs, h => by
    have hIH := fw_combined n cs (Nat.le_of_succ_le_succ (by simpa using h))
    constructor
    · intro run ok hrun
      have hre : run.isEmpty = false := by
        cases run with
        | nil => exact absurd rfl hrun
        | cons a as => rfl
      cases haz : isLowerAZ c with
      | true =>
        have hstep : fwAux run ok true (c :: cs) = fwAux (c :: run) ok true cs := by
          simp [fwAux, haz, hre]
        rw [hstep, hIH.1 (c :: run) ok (List.cons_ne_nil c run)]
        simp [List.dropWhile_cons, List.takeWhile_cons, haz, List.append_assoc]
      | false =>
        have hstep : fwAux run ok true (c :: cs)
            = (if !run.isEmpty && ok && !isWordChar c then [run.reverse] else [])
              ++ fwAux [] false (isWordChar c) cs := by
          simp [fwAux, haz]
        rw [hstep, hIH.2 (isWordChar c)]
        have hdrop : (c :: cs).dropWhile isLowerAZ = c :: cs := by
          simp [List.dropWhile_cons, haz]
        have htake : (c :: cs).takeWhile isLowerAZ = [] := by
          simp [List.takeWhile_cons, haz]
        have hspec : specTokensGo true (c :: cs) = specTokensGo (isWordChar c) cs := by
          simp [specTokensGo, haz]
        rw [hdrop, htake, hspec]
        simp [boundaryOk, hre]
    · intro pw
      cases haz : isLowerAZ c with
      | true =>
        have hstep : fwAux [] false pw (c :: cs) = fwAux [c] (!pw) true cs := by
          simp [fwAux, haz]
        rw [hstep, hIH.1 [c] (!pw) (by simp)]
        simp [specTokensGo, haz, List.dropWhile_cons, List.takeWhile_cons]
      | false =>
        have hstep : fwAux [] false pw (c :: cs) = fwAux [] false (isWordChar c) cs := by
          simp [fwAux, haz]
        rw [hstep, hIH.2 (isWordChar c)]
        simp [specTokensGo, haz]

/-- C3 (amended): the tokens counted by `get_top_words` are the maximal
runs of lowercase ASCII letters of the lowered text that are bounded by
word boundaries — i.e. a run is extracted exactly when the characters
adjacent to it (if any) are not regex word characters.  Punctuation or
whitespace next to a run therefore still lets it count, but a run
adjacent to a digit, an underscore or a (Unicode) letter is not
extracted at all.  The claim's concrete example stands:
`top_words("the the the cat", 2) = [("the", 3), ("cat", 1)]`. -/
theorem tokens_eq_boundary_filtered_runs :
    (∀ text : List Char, findWords text = specTokens text)
    ∧ get_top_words (("the the the cat".toList)) 2
        = [(("the".toList), 3), (("cat".toList), 1)] := by
  constructor
  · intro text
    rw [findWords, specTokens]
    exact (fw_combined text.length text (Nat.le_refl _)).2 false
  · decide
